import Mathlib

/-!
Verification of the text chunking and reassembly engine of the
english-to-hindi-roman repository.

The embedding models the two core modules:

* `utility/file_splitter.py` — `split_text_into_chunks` (the chunking
  heuristic) and `split_file` (the validating write path);
* `utility/file_merger.py` — `get_numbered_files` (numbered segment
  discovery) and `merge_files` (reassembly with a separator).

Texts are modelled as `String` (a `List Char` underneath), matching
Python's sequence-of-characters view of `str`.  The file system is
modelled explicitly: a folder is a list of (file name, file content)
pairs, plus distinguished states for a missing path and for a path that
exists but is not a directory (resp. not a regular file).  File reads
inside an existing folder always succeed in the model; the per-file
exception handler of `merge_files` is still represented (a failed lookup
is skipped), mirroring the warn-and-continue branch of the source.
Paths returned by discovery are represented by the entry names relative
to the folder, and the effect of writing a file is represented by the
returned content rather than by an actual I/O action.
-/

/-- Whitespace test used by Python's `str.strip` and `str.split`:
the Unicode whitespace class (tab through carriage return, the
separator control characters, space, next line, no-break space and the
Unicode space separators). -/
def isPySpace (c : Char) : Bool :=
  let n := c.toNat
  (9 ≤ n && n ≤ 13) || (28 ≤ n && n ≤ 32) || n == 133 || n == 160 ||
    n == 0x1680 || (0x2000 ≤ n && n ≤ 0x200A) || n == 0x2028 || n == 0x2029 ||
    n == 0x202F || n == 0x205F || n == 0x3000

/-- Python `str.strip()` on a character list: drop whitespace from both ends. -/
def pyStrip (l : List Char) : List Char :=
  ((l.dropWhile isPySpace).reverse.dropWhile isPySpace).reverse

/-- Python `str.strip()` on a `String`. -/
def pyStripS (s : String) : String :=
  String.mk (pyStrip s.data)

/-- Python slice `text[pos:e]` (for `pos ≤ e`; clamped like Python). -/
def sliceL (text : List Char) (pos e : Nat) : List Char :=
  (text.drop pos).take (e - pos)

/-- Largest index `i` with `start ≤ i < fin` satisfying `p`, or `-1` if none:
the common core of Python's `str.rfind` over an index window. -/
def rlast (p : Nat → Bool) (start : Nat) : Nat → Int
  | 0 => -1
  | fin + 1 => if start ≤ fin ∧ p fin = true then (fin : Int) else rlast p start fin

/-- Index predicate for a two character pattern `c` followed by a space,
as in Python `text.rfind(c + ' ', ...)` for the sentence terminators. -/
def sentAt (text : List Char) (c : Char) (i : Nat) : Bool :=
  text.get? i == some c && text.get? (i + 1) == some ' '

/-- Index predicate for a single space, as in Python `text.rfind(' ', ...)`. -/
def spaceAt (text : List Char) (i : Nat) : Bool :=
  text.get? i == some ' '

/-- One step of the chunk boundary computation of `split_text_into_chunks`
(file_splitter.py lines 29-48): the candidate end is
`min(current_pos + max_chars, text_length)`; if that is not the end of the
text, prefer the rightmost sentence terminator followed by a space inside
the trailing 200 character window (keeping the terminator), then the
rightmost space (excluded), else keep the hard cut. -/
def chunkEnd (text : List Char) (maxChars pos : Nat) : Nat :=
  let n := text.length
  let e0 := min (pos + maxChars) n
  if e0 < n then
    let s := max pos (e0 - 200)
    let lastSentence :=
      max (max (rlast (sentAt text '.') s (e0 - 1)) (rlast (sentAt text '!') s (e0 - 1)))
        (rlast (sentAt text '?') s (e0 - 1))
    if lastSentence ≠ -1 ∧ (pos : Int) < lastSentence then
      lastSentence.toNat + 1
    else
      let lastSpace := rlast (spaceAt text) s e0
      if lastSpace ≠ -1 ∧ (pos : Int) < lastSpace then
        lastSpace.toNat
      else e0
  else e0

/-- The `while current_pos < text_length` loop of `split_text_into_chunks`,
with explicit fuel standing for the number of remaining permitted
iterations: `none` models divergence of the Python loop (the fuel runs
out before the cursor reaches the end of the text).  Each iteration
extracts the slice up to `chunkEnd`, strips it, appends it when non-empty
and advances the cursor to the pre-trim end position. -/
def splitGo (text : List Char) (maxChars : Nat) : Nat → Nat → Option (List (List Char))
  | 0, pos => if pos < text.length then none else some []
  | fuel + 1, pos =>
    if pos < text.length then
      match splitGo text maxChars fuel (chunkEnd text maxChars pos) with
      | none => none
      | some rest =>
        let chunk := pyStrip (sliceL text pos (chunkEnd text maxChars pos))
        some (if chunk = [] then rest else chunk :: rest)
    else some []

/-- `split_text_into_chunks` on character lists.  A fuel of `text.length`
iterations always suffices when `max_chars ≥ 1` because the cursor
strictly increases (proved below); the `getD []` default is never taken
in that case. -/
def split_chunks (text : List Char) (maxChars : Nat) : List (List Char) :=
  (splitGo text maxChars text.length 0).getD []

/-- `split_text_into_chunks(text, max_chars)` of file_splitter.py. -/
def split_text_into_chunks (text : String) (maxChars : Nat) : List String :=
  (split_chunks text.data maxChars).map String.mk

/-- The decimal digit characters, for rendering and parsing file numbers. -/
def digitChr (d : Nat) : Char :=
  match d with
  | 0 => '0' | 1 => '1' | 2 => '2' | 3 => '3' | 4 => '4'
  | 5 => '5' | 6 => '6' | 7 => '7' | 8 => '8' | _ => '9'

/-- Decimal digits of `n` (most significant first), with fuel; `fuel ≥ n`
always suffices. -/
def digitsGo : Nat → Nat → List Char
  | 0, _ => []
  | fuel + 1, n => if n = 0 then [] else digitsGo fuel (n / 10) ++ [digitChr (n % 10)]

/-- Standard decimal rendering of a natural number, as produced by a
Python f-string such as `f"{i}.txt"` or `f"{total_chars}"`. -/
def decimalRepr (n : Nat) : List Char :=
  if n = 0 then ['0'] else digitsGo n n

/-- Decimal rendering as a `String`. -/
def natRepr (n : Nat) : String :=
  String.mk (decimalRepr n)

/-- Value of a decimal digit string, as computed by Python `int(...)`
on the digits matched by the file-number regex. -/
def digitsToNat (cs : List Char) : Nat :=
  cs.foldl (fun a c => 10 * a + (c.toNat - 48)) 0

/-- The file name regex `^(\d+)\.txt$` of `get_numbered_files`
(file_merger.py line 33): a non-empty run of digits followed by exactly
`.txt`.  Returns the integer value of the digits on a match (the
`int(match.group(1))` of line 35), `none` otherwise.  The `*.txt` glob
of line 31 is subsumed: every regex match ends in `.txt`. -/
def matchNumbered (name : String) : Option Nat :=
  let l := name.data
  let ds := l.take (l.length - 4)
  let ext := l.drop (l.length - 4)
  if ext = ['.', 't', 'x', 't'] ∧ ds ≠ [] ∧ ds.all Char.isDigit then
    some (digitsToNat ds)
  else none

/-- State of a folder path in the modelled file system: missing, existing
but not a directory, or a directory with its immediate entries given as
(file name, file content) pairs. -/
inductive FsDir where
  | missing : FsDir
  | notDir : FsDir
  | dir : List (String × String) → FsDir

/-- The (number, name) pairs of the entries matching the numbering
pattern, in directory enumeration order (before sorting). -/
def matchedPairs (entries : List (String × String)) : List (Nat × String) :=
  entries.filterMap fun e => (matchNumbered e.1).map fun k => (k, e.1)

/-- Comparison key of the numeric sort `numbered_files.sort(key=lambda x: x[0])`
(file_merger.py line 38). -/
def keyLe (a b : Nat × String) : Prop :=
  a.1 ≤ b.1

instance : DecidableRel keyLe := fun a b => inferInstanceAs (Decidable (a.1 ≤ b.1))

instance : IsTotal (Nat × String) keyLe := ⟨fun a b => Nat.le_total a.1 b.1⟩

instance : IsTrans (Nat × String) keyLe := ⟨fun _ _ _ h₁ h₂ => Nat.le_trans h₁ h₂⟩

/-- `get_numbered_files(folder_path)` of file_merger.py: the empty list
for a missing or non-directory path; otherwise the (number, name) pairs
of the entries matching `^(\d+)\.txt$`, sorted by number ascending.
Paths are represented by the entry names relative to the folder. -/
def get_numbered_files (folder : FsDir) : List (Nat × String) :=
  match folder with
  | .missing => []
  | .notDir => []
  | .dir entries => List.insertionSort keyLe (matchedPairs entries)

/-- Reading a file of the folder by name (the `open(file_path)` of
file_merger.py line 94, restricted to the folder's own entries). -/
def readEntry : List (String × String) → String → Option String
  | [], _ => none
  | e :: t, name => if e.1 = name then some e.2 else readEntry t name

/-- The read-strip-filter loop of `merge_files` (file_merger.py lines
92-103): visit the discovered files in order, read each one, strip its
content, keep the non-empty results; an unreadable file is skipped with
a warning.  The result is the `merged_content` list, whose length is the
`files_processed` counter. -/
def collectContents (entries : List (String × String)) : List (Nat × String) → List String
  | [] => []
  | p :: rest =>
    match readEntry entries p.2 with
    | none => collectContents entries rest
    | some content =>
      if pyStripS content = "" then collectContents entries rest
      else pyStripS content :: collectContents entries rest

/-- `separator.join(merged_content)` on character lists. -/
def joinSep (sep : List Char) : List (List Char) → List Char
  | [] => []
  | [c] => c
  | c :: c' :: rest => c ++ sep ++ joinSep sep (c' :: rest)

/-- `separator.join(merged_content)` on strings. -/
def joinSepS (sep : String) (ls : List String) : String :=
  String.mk (joinSep sep.data (ls.map String.data))

/-- Success payload of `merge_files`: the output file path, the counts
returned in the result dictionary, and the content written to the output
file (the model of the file write of file_merger.py lines 115-119). -/
structure MergeOk where
  output_file : String
  files_merged : Nat
  total_chars : Nat
  files_found : Nat
  content : String
deriving DecidableEq

/-- `merge_files(input_folder, output_file=None, separator)` of
file_merger.py, with the default output file `merged.txt` inside the
input folder.  Failure returns the error string of the corresponding
`{"success": False, "error": ...}` dictionary; nothing is written. -/
def merge_files (folder : FsDir) (folderName sep : String) : Except String MergeOk :=
  match folder with
  | .missing => .error ("Input folder not found: " ++ folderName)
  | .notDir => .error ("Path is not a directory: " ++ folderName)
  | .dir entries =>
    let numbered := get_numbered_files (.dir entries)
    if numbered = [] then
      .error ("No numbered text files found in: " ++ folderName)
    else
      let merged := collectContents entries numbered
      if merged = [] then
        .error "No content found in any of the numbered files"
      else
        let finalContent := joinSepS sep merged
        .ok
          { output_file := folderName ++ "/merged.txt"
            files_merged := merged.length
            total_chars := finalContent.length
            files_found := numbered.length
            content := finalContent }

/-- Content written by a merge, or the empty string when the merge fails
(nothing is written). -/
def mergeOutputContent (r : Except String MergeOk) : String :=
  match r with
  | .ok m => m.content
  | .error _ => ""

/-- Error string of a failed merge. -/
def mergeError (r : Except String MergeOk) : Option String :=
  match r with
  | .ok _ => none
  | .error e => some e

/-- Success flag of a merge result. -/
def mergeIsOk (r : Except String MergeOk) : Bool :=
  match r with
  | .ok _ => true
  | .error _ => false

/-- Case-insensitive containment, the sense in which an error message
mentions a phrase (the repository's own tests check mentions with
`"not found" in result["error"].lower()`). -/
def mentions (msg pat : String) : Prop :=
  (pat.data.map Char.toLower) <:+: (msg.data.map Char.toLower)

instance (msg pat : String) : Decidable (mentions msg pat) :=
  inferInstanceAs (Decidable (_ <:+: _))

/-- State of the input path of `split_file` in the modelled file system:
missing, existing but not a regular file, or a readable file with the
given text content. -/
inductive FsFile where
  | missing : FsFile
  | notFile : FsFile
  | file : String → FsFile

/-- Success payload of `split_file`: the fields of the result dictionary
(file_splitter.py lines 123-129). -/
structure SplitOk where
  output_folder : String
  files_created : Nat
  total_chars : Nat
  chunks : List String
deriving DecidableEq

/-- The name of the numbered segment file for index `i`, the Python
`f"{i}.txt"` of file_splitter.py line 118. -/
def segName (i : Nat) : String :=
  natRepr i ++ ".txt"

/-- The numbered segment files written for a chunk list: chunk `i`
(1-based) goes to file `{i}.txt` (file_splitter.py lines 117-121).
Also the model of a folder produced by the write path, fed back to the
merger. -/
def numberedEntries (k : Nat) : List String → List (String × String)
  | [] => []
  | c :: t => (segName k, c) :: numberedEntries (k + 1) t

/-- The discovery output expected on a folder of numbered segments:
indices from `k` up, paired with the segment file names. -/
def indexPairs (k : Nat) : List String → List (Nat × String)
  | [] => []
  | _ :: t => (k, segName k) :: indexPairs (k + 1) t

/-- Outcome of `split_file`: the returned result dictionary together
with the file system effects performed (whether the output folder was
created, and which segment files were written with which content). -/
structure SplitOutcome where
  result : Except String SplitOk
  folder_created : Bool
  writes : List (String × String)

/-- `split_file(input_file_path, ...)` of file_splitter.py: validate
that the input exists, is a regular file, is not longer than 300,000
characters and is not empty (in that order, lines 80-112); on any
violation return the corresponding error without touching the output
folder.  Otherwise create the folder, chunk the content and write one
numbered file per chunk. -/
def split_file (input : FsFile) (inputPath : String) (maxChars : Nat)
    (outputFolder : String) : SplitOutcome :=
  match input with
  | .missing =>
    { result := .error ("Input file not found: " ++ inputPath)
      folder_created := false, writes := [] }
  | .notFile =>
    { result := .error ("Path is not a file: " ++ inputPath)
      folder_created := false, writes := [] }
  | .file content =>
    let totalChars := content.length
    if 300000 < totalChars then
      { result := .error ("File too large: " ++ natRepr totalChars ++ " characters (max 300,000)")
        folder_created := false, writes := [] }
    else if totalChars = 0 then
      { result := .error "Input file is empty"
        folder_created := false, writes := [] }
    else
      let chunks := split_text_into_chunks content maxChars
      { result := .ok
          { output_folder := outputFolder
            files_created := chunks.length
            total_chars := totalChars
            chunks := chunks }
        folder_created := true
        writes := numberedEntries 1 chunks }

/-- Writing a file into a folder: replace the content when the name is
already present, otherwise append a new entry. -/
def writeEntry (entries : List (String × String)) (name content : String) :
    List (String × String) :=
  if entries.any fun e => e.1 = name then
    entries.map fun e => if e.1 = name then (e.1, content) else e
  else entries ++ [(name, content)]

/-- The folder contents after a default-output `merge_files` call on it:
on success the merged text is written to `merged.txt` inside the folder,
on failure nothing is written. -/
def folderAfterDefaultMerge (entries : List (String × String)) (folderName sep : String) :
    List (String × String) :=
  match merge_files (.dir entries) folderName sep with
  | .ok r => writeEntry entries "merged.txt" r.content
  | .error _ => entries

/-- The non-whitespace characters of a character list, in order. -/
def keepNonSpace (l : List Char) : List Char :=
  l.filter fun c => !(isPySpace c)

/-- The non-whitespace characters of a string, in order. -/
def keepNonSpaceS (s : String) : String :=
  String.mk (keepNonSpace s.data)

/-- Concatenated non-whitespace characters of a chunk list. -/
def joinedNonSpace : List (List Char) → List Char
  | [] => []
  | c :: t => keepNonSpace c ++ joinedNonSpace t

/-- Python `str.split()` with no arguments (the whitespace-delimited
word tokens), with fuel; `l.length` fuel always suffices. -/
def pyWordsGo : Nat → List Char → List (List Char)
  | 0, _ => []
  | _, [] => []
  | fuel + 1, c :: t =>
    if isPySpace c then pyWordsGo fuel t
    else (c :: t.takeWhile fun d => !(isPySpace d)) ::
      pyWordsGo fuel (t.dropWhile fun d => !(isPySpace d))

/-- The whitespace-delimited word tokens of a string, as in Python
`text.split()`. -/
def pyWords (s : String) : List String :=
  (pyWordsGo s.data.length s.data).map String.mk

/-- The contents the merge is specified to assemble: the discovered
files' contents in index order, stripped, with empty results dropped. -/
def mergedSpec (entries : List (String × String)) : List String :=
  (((get_numbered_files (.dir entries)).filterMap fun p => readEntry entries p.2).map
    pyStripS).filter fun s => s ≠ ""

/-! ### Bounds for the boundary search -/

theorem rlast_lt (p : Nat → Bool) (start : Nat) :
    ∀ fin, rlast p start fin < (fin : Int)
  | 0 => by simp [rlast]
  | fin + 1 => by
    unfold rlast
    split
    · exact_mod_cast Nat.lt_succ_self fin
    · have := rlast_lt p start fin
      push_cast
      omega

theorem neg_one_le_rlast (p : Nat → Bool) (start : Nat) :
    ∀ fin, -1 ≤ rlast p start fin
  | 0 => le_refl _
  | fin + 1 => by
    unfold rlast
    split
    · omega
    · exact neg_one_le_rlast p start fin

/-- The chunk end never exceeds the raw candidate end
`min(current_pos + max_chars, text_length)`. -/
theorem chunkEnd_le (text : List Char) (maxChars pos : Nat) :
    chunkEnd text maxChars pos ≤ min (pos + maxChars) text.length := by
  simp only [chunkEnd]
  set n := text.length with hn
  set e0 := min (pos + maxChars) n with he0
  split_ifs with h1 h2 h3
  · have b1 := rlast_lt (sentAt text '.') (max pos (e0 - 200)) (e0 - 1)
    have b2 := rlast_lt (sentAt text '!') (max pos (e0 - 200)) (e0 - 1)
    have b3 := rlast_lt (sentAt text '?') (max pos (e0 - 200)) (e0 - 1)
    have hmax := max_lt (max_lt b1 b2) b3
    have hpos := h2.2
    omega
  · have b := rlast_lt (spaceAt text) (max pos (e0 - 200)) e0
    have hpos := h3.2
    omega
  · omega
  · omega

/-- When `max_chars ≥ 1` and the cursor is inside the text, the chunk end
is strictly past the cursor: the loop makes progress. -/
theorem lt_chunkEnd (text : List Char) (maxChars pos : Nat)
    (hpos : pos < text.length) (hm : 1 ≤ maxChars) :
    pos < chunkEnd text maxChars pos := by
  simp only [chunkEnd]
  set n := text.length with hn
  set e0 := min (pos + maxChars) n with he0
  split_ifs with h1 h2 h3
  · have hp := h2.2
    omega
  · have hp := h3.2
    omega
  · omega
  · omega

/-! ### Properties of stripping -/

theorem dropWhile_head_false {α : Type} {p : α → Bool} :
    ∀ {l : List α} {a : α} {r : List α}, l.dropWhile p = a :: r → p a = false
  | [], a, r, h => by simp [List.dropWhile] at h
  | b :: t, a, r, h => by
    rw [List.dropWhile_cons] at h
    split at h
    · exact dropWhile_head_false h
    · next hb =>
      cases h
      simpa using hb

theorem dropWhile_eq_self {α : Type} {p : α → Bool} {l : List α}
    (h : ∀ a, l.head? = some a → p a = false) : l.dropWhile p = l := by
  cases l with
  | nil => rfl
  | cons b t => simp [List.dropWhile_cons, h b rfl]

theorem getLast?_dropWhile {α : Type} {p : α → Bool} {l : List α}
    (h : l.dropWhile p ≠ []) : (l.dropWhile p).getLast? = l.getLast? := by
  conv_rhs => rw [← List.takeWhile_append_dropWhile (p := p) (l := l)]
  exact (List.getLast?_append_of_ne_nil _ h).symm

theorem filter_dropWhile {α : Type} {p q : α → Bool}
    (hpq : ∀ a, p a = true → q a = false) :
    ∀ l : List α, (l.dropWhile p).filter q = l.filter q
  | [] => rfl
  | b :: t => by
    rw [List.dropWhile_cons]
    split
    · next hb =>
      rw [filter_dropWhile hpq t, List.filter_cons, hpq b hb]
      simp
    · rfl

/-- Stripping only removes characters. -/
theorem pyStrip_length_le (l : List Char) : (pyStrip l).length ≤ l.length := by
  unfold pyStrip
  have h1 := (List.dropWhile_sublist (l := l) isPySpace).length_le
  have h2 := (List.dropWhile_sublist (l := (l.dropWhile isPySpace).reverse) isPySpace).length_le
  simp only [List.length_reverse] at *
  omega

/-- Stripping preserves the non-whitespace characters. -/
theorem keepNonSpace_pyStrip (l : List Char) : keepNonSpace (pyStrip l) = keepNonSpace l := by
  unfold pyStrip keepNonSpace
  have hpq : ∀ c : Char, isPySpace c = true → (!(isPySpace c)) = false := by
    intro c hc
    simp [hc]
  rw [List.filter_reverse, filter_dropWhile hpq, List.filter_reverse,
    filter_dropWhile hpq, List.reverse_reverse]

theorem keepNonSpace_eq_nil_of_pyStrip {l : List Char} (h : pyStrip l = []) :
    keepNonSpace l = [] := by
  rw [← keepNonSpace_pyStrip, h]
  rfl

/-- A stripped list starts with a non-whitespace character (if any). -/
theorem pyStrip_head {l : List Char} {a : Char} (h : (pyStrip l).head? = some a) :
    isPySpace a = false := by
  unfold pyStrip at h
  rw [List.head?_reverse] at h
  have hne : (l.dropWhile isPySpace).reverse.dropWhile isPySpace ≠ [] := by
    intro hnil
    rw [hnil] at h
    simp at h
  rw [getLast?_dropWhile hne] at h
  have : (l.dropWhile isPySpace).reverse.reverse.head? = some a := by
    rw [List.head?_reverse, h]
  rw [List.reverse_reverse] at this
  cases hd : l.dropWhile isPySpace with
  | nil => rw [hd] at this; simp at this
  | cons b t =>
    rw [hd] at this
    simp only [List.head?_cons, Option.some.injEq] at this
    subst this
    exact dropWhile_head_false hd

/-- A stripped list ends with a non-whitespace character (if any). -/
theorem pyStrip_getLast {l : List Char} {a : Char} (h : (pyStrip l).getLast? = some a) :
    isPySpace a = false := by
  unfold pyStrip at h
  have : ((l.dropWhile isPySpace).reverse.dropWhile isPySpace).reverse.reverse.head? = some a := by
    rw [List.head?_reverse, h]
  rw [List.reverse_reverse] at this
  cases hd : (l.dropWhile isPySpace).reverse.dropWhile isPySpace with
  | nil => rw [hd] at this; simp at this
  | cons b t =>
    rw [hd] at this
    simp only [List.head?_cons, Option.some.injEq] at this
    subst this
    exact dropWhile_head_false hd

/-- Stripping is idempotent: a merge that re-strips the persisted chunks
leaves them unchanged. -/
theorem pyStrip_idem (l : List Char) : pyStrip (pyStrip l) = pyStrip l := by
  conv_lhs => rw [pyStrip]
  rw [dropWhile_eq_self fun a h => pyStrip_head h]
  rw [dropWhile_eq_self fun a h => by
    rw [List.head?_reverse] at h
    exact pyStrip_getLast h]
  exact List.reverse_reverse _

/-- The chunk end never moves the cursor backwards. -/
theorem le_chunkEnd (text : List Char) (maxChars pos : Nat)
    (hpos : pos ≤ text.length) :
    pos ≤ chunkEnd text maxChars pos := by
  simp only [chunkEnd]
  set n := text.length with hn
  set e0 := min (pos + maxChars) n with he0
  split_ifs with h1 h2 h3
  · have hp := h2.2
    omega
  · have hp := h3.2
    omega
  · omega
  · omega

/-! ### Properties of the chunking loop -/

theorem sliceL_length (text : List Char) (pos e : Nat) :
    (sliceL text pos e).length = min (e - pos) (text.length - pos) := by
  simp [sliceL]

theorem sliceL_append_drop (text : List Char) {pos e : Nat} (h : pos ≤ e) :
    sliceL text pos e ++ text.drop e = text.drop pos := by
  unfold sliceL
  have hdrop : text.drop e = (text.drop pos).drop (e - pos) := by
    rw [List.drop_drop]
    congr 1
    omega
  rw [hdrop, List.take_append_drop]

theorem keepNonSpace_append (l r : List Char) :
    keepNonSpace (l ++ r) = keepNonSpace l ++ keepNonSpace r := by
  simp [keepNonSpace, List.filter_append]

/-- Once the cursor has reached the end of the text the loop stops at once. -/
theorem splitGo_done (text : List Char) (maxChars : Nat) {pos : Nat}
    (h : text.length ≤ pos) : ∀ fuel, splitGo text maxChars fuel pos = some []
  | 0 => by simp [splitGo]; omega
  | fuel + 1 => by
    have : ¬ pos < text.length := by omega
    simp [splitGo, this]

/-- Termination: with `max_chars ≥ 1`, fuel covering the remaining text
suffices for the loop to finish (the cursor strictly increases at every
iteration). -/
theorem splitGo_isSome (text : List Char) (maxChars : Nat) (hm : 1 ≤ maxChars) :
    ∀ fuel pos, text.length ≤ pos + fuel → (splitGo text maxChars fuel pos).isSome = true
  | 0, pos, h => by
    have : ¬ pos < text.length := by omega
    simp [splitGo, this]
  | fuel + 1, pos, h => by
    by_cases hp : pos < text.length
    · have hlt := lt_chunkEnd text maxChars pos hp hm
      have ih := splitGo_isSome text maxChars hm fuel (chunkEnd text maxChars pos) (by omega)
      simp only [splitGo, hp, if_true]
      cases hgo : splitGo text maxChars fuel (chunkEnd text maxChars pos) with
      | none => rw [hgo] at ih; simp at ih
      | some rest => simp
    · simp [splitGo, hp]

/-- With `max_chars ≥ 1` the loop run underlying `split_chunks` returns
a value (fuel `text.length` is enough). -/
theorem splitGo_eq_some (text : List Char) (maxChars : Nat) (hm : 1 ≤ maxChars) :
    splitGo text maxChars text.length 0 = some (split_chunks text maxChars) := by
  have h := splitGo_isSome text maxChars hm text.length 0 (by omega)
  cases hgo : splitGo text maxChars text.length 0 with
  | none => rw [hgo] at h; simp at h
  | some cs => simp [split_chunks, hgo]

/-- Well-formedness of every produced chunk: non-empty, within the size
bound, and already stripped. -/
theorem splitGo_chunks (text : List Char) (maxChars : Nat) :
    ∀ fuel pos cs, splitGo text maxChars fuel pos = some cs →
      ∀ c ∈ cs, c ≠ [] ∧ c.length ≤ maxChars ∧ pyStrip c = c
  | 0, pos, cs, h => by
    by_cases hp : pos < text.length <;> simp [splitGo, hp] at h
    subst h
    intro c hc
    simp at hc
  | fuel + 1, pos, cs, h => by
    by_cases hp : pos < text.length
    · simp only [splitGo, hp, if_true] at h
      cases hgo : splitGo text maxChars fuel (chunkEnd text maxChars pos) with
      | none => rw [hgo] at h; simp at h
      | some rest =>
        rw [hgo] at h
        simp only [Option.some.injEq] at h
        have ih := splitGo_chunks text maxChars fuel (chunkEnd text maxChars pos) rest hgo
        have hchunk :
            ∀ c, c = pyStrip (sliceL text pos (chunkEnd text maxChars pos)) → c ≠ [] →
              c ≠ [] ∧ c.length ≤ maxChars ∧ pyStrip c = c := by
          intro c hc hne
          refine ⟨hne, ?_, by rw [hc, pyStrip_idem]⟩
          have h1 := pyStrip_length_le (sliceL text pos (chunkEnd text maxChars pos))
          have h2 := sliceL_length text pos (chunkEnd text maxChars pos)
          have h3 := chunkEnd_le text maxChars pos
          rw [hc]
          omega
        split at h
        · next hempty =>
          subst h
          exact ih
        · next hne =>
          subst h
          intro c hc
          rcases List.mem_cons.1 hc with rfl | hmem
          · exact hchunk _ rfl hne
          · exact ih c hmem
    · rw [splitGo_done text maxChars (by omega) (fuel + 1)] at h
      simp only [Option.some.injEq] at h
      subst h
      intro c hc
      simp at hc

/-- Content preservation of the chunking loop: the concatenated
non-whitespace characters of the chunks are exactly the non-whitespace
characters of the unread remainder of the text. -/
theorem splitGo_content (text : List Char) (maxChars : Nat) :
    ∀ fuel pos cs, pos ≤ text.length → splitGo text maxChars fuel pos = some cs →
      joinedNonSpace cs = keepNonSpace (text.drop pos)
  | 0, pos, cs, hpos, h => by
    by_cases hp : pos < text.length <;> simp [splitGo, hp] at h
    subst h
    rw [List.drop_eq_nil_of_le (by omega)]
    rfl
  | fuel + 1, pos, cs, hpos, h => by
    by_cases hp : pos < text.length
    · simp only [splitGo, hp, if_true] at h
      cases hgo : splitGo text maxChars fuel (chunkEnd text maxChars pos) with
      | none => rw [hgo] at h; simp at h
      | some rest =>
        rw [hgo] at h
        simp only [Option.some.injEq] at h
        have hpe := le_chunkEnd text maxChars pos (by omega)
        have hen : chunkEnd text maxChars pos ≤ text.length := by
          have := chunkEnd_le text maxChars pos
          omega
        have ih := splitGo_content text maxChars fuel (chunkEnd text maxChars pos) rest hen hgo
        have hsplit : keepNonSpace (text.drop pos) =
            keepNonSpace (sliceL text pos (chunkEnd text maxChars pos)) ++
              keepNonSpace (text.drop (chunkEnd text maxChars pos)) := by
          rw [← keepNonSpace_append, sliceL_append_drop text hpe]
        split at h
        · next hempty =>
          subst h
          rw [ih, hsplit,
            keepNonSpace_eq_nil_of_pyStrip hempty, List.nil_append]
        · next hne =>
          subst h
          show keepNonSpace _ ++ joinedNonSpace rest = _
          rw [ih, hsplit, keepNonSpace_pyStrip]
    · rw [splitGo_done text maxChars (by omega) (fuel + 1)] at h
      simp only [Option.some.injEq] at h
      subst h
      rw [List.drop_eq_nil_of_le (by omega)]
      rfl



/-! ### Decimal file names parse back to their index -/

theorem digitsGo_zero : ∀ fuel, digitsGo fuel 0 = []
  | 0 => rfl
  | _ + 1 => by simp [digitsGo]

theorem digitChr_toNat : ∀ d, d < 10 → (digitChr d).toNat - 48 = d := by decide

theorem digitChr_isDigit : ∀ d, d < 10 → (digitChr d).isDigit = true := by decide

theorem digitsToNat_append_digit (xs : List Char) (c : Char) :
    digitsToNat (xs ++ [c]) = 10 * digitsToNat xs + (c.toNat - 48) := by
  simp [digitsToNat, List.foldl_append]

theorem digitsGo_spec :
    ∀ fuel n, 1 ≤ n → n ≤ fuel →
      digitsGo fuel n ≠ [] ∧ (∀ c ∈ digitsGo fuel n, c.isDigit = true) ∧
        digitsToNat (digitsGo fuel n) = n
  | 0, n, h1, h2 => by omega
  | fuel + 1, n, h1, h2 => by
    have hn : ¬ n = 0 := by omega
    simp only [digitsGo, hn, if_false]
    have hd : n % 10 < 10 := Nat.mod_lt n (by omega)
    by_cases hq : n / 10 = 0
    · rw [hq, digitsGo_zero]
      refine ⟨by simp, ?_, ?_⟩
      · intro c hc
        simp only [List.nil_append, List.mem_singleton] at hc
        subst hc
        exact digitChr_isDigit _ hd
      · rw [digitsToNat_append_digit]
        have h0 : digitsToNat [] = 0 := rfl
        have := digitChr_toNat (n % 10) hd
        omega
    · have hq1 : 1 ≤ n / 10 := by omega
      have hq2 : n / 10 ≤ fuel := by
        have := Nat.div_lt_self (by omega : 0 < n) (by omega : 1 < 10)
        omega
      obtain ⟨ih1, ih2, ih3⟩ := digitsGo_spec fuel (n / 10) hq1 hq2
      refine ⟨by simp, ?_, ?_⟩
      · intro c hc
        rcases List.mem_append.1 hc with hc | hc
        · exact ih2 c hc
        · simp only [List.mem_singleton] at hc
          subst hc
          exact digitChr_isDigit _ hd
      · rw [digitsToNat_append_digit, ih3]
        have := digitChr_toNat (n % 10) hd
        have := Nat.div_add_mod n 10
        omega

theorem decimalRepr_spec (n : Nat) :
    decimalRepr n ≠ [] ∧ (∀ c ∈ decimalRepr n, c.isDigit = true) ∧
      digitsToNat (decimalRepr n) = n := by
  by_cases hn : n = 0
  · subst hn
    exact ⟨by decide, by decide, by decide⟩
  · have := digitsGo_spec n n (by omega) (le_refl n)
    simpa [decimalRepr, hn] using this

/-- The regex of `get_numbered_files` recovers the index from a segment
file name written by `split_file`. -/
theorem matchNumbered_segName (i : Nat) : matchNumbered (segName i) = some i := by
  obtain ⟨h1, h2, h3⟩ := decimalRepr_spec i
  have hdata : (segName i).data = decimalRepr i ++ ['.', 't', 'x', 't'] := by
    simp [segName, natRepr, String.data_append]
  simp only [matchNumbered]
  rw [hdata]
  have hlen : (decimalRepr i ++ ['.', 't', 'x', 't']).length - 4 = (decimalRepr i).length := by
    simp
  rw [hlen, List.take_left, List.drop_left]
  have hall : (decimalRepr i).all Char.isDigit = true := by
    rw [List.all_eq_true]
    exact h2
  simp [h1, hall, h3]

theorem segName_inj {i j : Nat} (h : segName i = segName j) : i = j := by
  have hi := matchNumbered_segName i
  have hj := matchNumbered_segName j
  rw [h, hj] at hi
  exact Option.some.inj hi.symm

/-! ### Discovery and reading on a folder of numbered segments -/

theorem matchedPairs_numberedEntries :
    ∀ (cs : List String) (k : Nat), matchedPairs (numberedEntries k cs) = indexPairs k cs
  | [], k => rfl
  | c :: t, k => by
    simp only [numberedEntries, indexPairs, matchedPairs, List.filterMap_cons,
      matchNumbered_segName, Option.map_some']
    exact congrArg _ (matchedPairs_numberedEntries t (k + 1))

theorem indexPairs_key_ge :
    ∀ (cs : List String) (k : Nat) (p : Nat × String), p ∈ indexPairs k cs → k ≤ p.1
  | c :: t, k, p, hp => by
    simp only [indexPairs, List.mem_cons] at hp
    rcases hp with rfl | hp
    · exact le_refl k
    · have := indexPairs_key_ge t (k + 1) p hp
      omega

theorem indexPairs_sorted :
    ∀ (cs : List String) (k : Nat), List.Sorted keyLe (indexPairs k cs)
  | [], _ => List.sorted_nil
  | c :: t, k => by
    rw [indexPairs, List.sorted_cons]
    refine ⟨fun p hp => ?_, indexPairs_sorted t (k + 1)⟩
    have := indexPairs_key_ge t (k + 1) p hp
    show k ≤ p.1
    omega

/-- Discovery on a folder of numbered segments returns exactly the index
pairs, in ascending index order. -/
theorem get_numbered_files_numberedEntries (cs : List String) (k : Nat) :
    get_numbered_files (.dir (numberedEntries k cs)) = indexPairs k cs := by
  rw [get_numbered_files, matchedPairs_numberedEntries]
  exact (indexPairs_sorted cs k).insertionSort_eq

theorem readEntry_numberedEntries :
    ∀ (cs : List String) (k i : Nat), k ≤ i → i < k + cs.length →
      readEntry (numberedEntries k cs) (segName i) = some (cs.getD (i - k) "")
  | [], k, i, h1, h2 => by
    simp only [List.length_nil] at h2
    omega
  | c :: t, k, i, h1, h2 => by
    rw [numberedEntries, readEntry]
    by_cases hik : i = k
    · subst hik
      simp [Nat.sub_self]
    · have hne : ¬ segName k = segName i := fun h => hik (segName_inj h).symm
      rw [if_neg hne]
      have h1' : k + 1 ≤ i := by omega
      have h2' : i < (k + 1) + t.length := by
        simp only [List.length_cons] at h2
        omega
      rw [readEntry_numberedEntries t (k + 1) i h1' h2']
      have hidx : i - k = (i - (k + 1)) + 1 := by omega
      rw [hidx, List.getD_cons_succ]

/-- The read-strip-filter loop, run over the index pairs of a chunk list
whose chunks are already stripped and non-empty, recovers the chunks. -/
theorem collectContents_indexPairs :
    ∀ (cs : List String) (k : Nat) (E : List (String × String)),
      (∀ i, k ≤ i → i < k + cs.length → readEntry E (segName i) = some (cs.getD (i - k) "")) →
      (∀ c ∈ cs, pyStripS c = c ∧ c ≠ "") →
      collectContents E (indexPairs k cs) = cs
  | [], k, E, hE, hcs => rfl
  | c :: t, k, E, hE, hcs => by
    rw [indexPairs, collectContents]
    have hread : readEntry E (segName k) = some c := by
      have := hE k (le_refl k) (by simp)
      simpa using this
    rw [hread]
    obtain ⟨hstrip, hne⟩ := hcs c (List.mem_cons_self c t)
    show (if pyStripS c = "" then collectContents E (indexPairs (k + 1) t)
      else pyStripS c :: collectContents E (indexPairs (k + 1) t)) = c :: t
    rw [hstrip, if_neg hne]
    refine congrArg _ (collectContents_indexPairs t (k + 1) E ?_ ?_)
    · intro i hi1 hi2
      have := hE i (by omega) (by simp; omega)
      rw [this]
      have hidx : i - k = (i - (k + 1)) + 1 := by omega
      rw [hidx, List.getD_cons_succ]
    · exact fun c' hc' => hcs c' (List.mem_cons_of_mem c hc')

/-- The loop of `merge_files` computes the specified read-strip-filter
composition over the discovered files, for any folder. -/
theorem collectContents_eq_spec (entries : List (String × String)) :
    ∀ ps : List (Nat × String),
      collectContents entries ps =
        ((ps.filterMap fun p => readEntry entries p.2).map pyStripS).filter fun s => s ≠ ""
  | [] => rfl
  | p :: rest => by
    rw [collectContents]
    cases hr : readEntry entries p.2 with
    | none => simp [List.filterMap_cons, hr, collectContents_eq_spec entries rest]
    | some content =>
      by_cases hc : pyStripS content = ""
      · simp only [hc, if_true, List.filterMap_cons, hr]
        rw [collectContents_eq_spec entries rest]
        simp [List.filter_cons, hc]
      · simp only [hc, if_false, List.filterMap_cons, hr]
        rw [collectContents_eq_spec entries rest]
        simp [List.filter_cons, hc]

/-! ### Joining and the round-trip core -/

theorem keepNonSpace_joinSep (sep : List Char) (hsep : keepNonSpace sep = []) :
    ∀ ls, keepNonSpace (joinSep sep ls) = joinedNonSpace ls
  | [] => rfl
  | [c] => by
    simp [joinSep, joinedNonSpace]
  | c :: c' :: rest => by
    rw [joinSep, keepNonSpace_append, keepNonSpace_append, hsep,
      keepNonSpace_joinSep sep hsep (c' :: rest)]
    simp [joinedNonSpace]

theorem stringMk_eq_empty_iff {c : List Char} : String.mk c = "" ↔ c = [] := by
  constructor
  · intro h
    exact congrArg String.data h
  · intro h
    rw [h]

theorem pyStripS_mk (c : List Char) : pyStripS (String.mk c) = String.mk (pyStrip c) := rfl

theorem map_data_map_mk : ∀ ls : List (List Char), (ls.map String.mk).map String.data = ls
  | [] => rfl
  | c :: t => by
    show String.data (String.mk c) :: (t.map String.mk).map String.data = c :: t
    rw [map_data_map_mk t]

/-- Chunks coming out of `split_text_into_chunks` are non-empty and fixed
by stripping, at the `String` level. -/
theorem split_text_chunk_props (T : String) (maxChars : Nat) (hm : 1 ≤ maxChars) :
    ∀ s ∈ split_text_into_chunks T maxChars, pyStripS s = s ∧ s ≠ "" := by
  intro s hs
  rw [split_text_into_chunks, List.mem_map] at hs
  obtain ⟨c, hc, rfl⟩ := hs
  rw [split_chunks, splitGo_eq_some T.data maxChars hm] at hc
  simp only [Option.getD_some] at hc
  obtain ⟨hne, _, hstrip⟩ :=
    splitGo_chunks T.data maxChars T.data.length 0 _ (splitGo_eq_some T.data maxChars hm) c hc
  refine ⟨?_, ?_⟩
  · rw [pyStripS_mk, hstrip]
  · intro h
    exact hne (stringMk_eq_empty_iff.1 h)

/-- The non-whitespace characters of the chunks of a text concatenate to
the non-whitespace characters of the text. -/
theorem joinedNonSpace_split_chunks (T : String) (maxChars : Nat) (hm : 1 ≤ maxChars) :
    joinedNonSpace (split_chunks T.data maxChars) = keepNonSpace T.data := by
  have h := splitGo_content T.data maxChars T.data.length 0
    (split_chunks T.data maxChars) (by omega) (splitGo_eq_some T.data maxChars hm)
  rw [List.drop_zero] at h
  exact h

/-- Round-trip core: merging the folder of persisted chunks of a split,
with any all-whitespace separator, preserves the non-whitespace character
sequence of the original text.  When the text is entirely whitespace the
split is empty and the merge fails having written nothing, which equally
preserves the (empty) non-whitespace content. -/
theorem merge_split_keepNonSpace (T : String) (maxChars : Nat) (hm : 1 ≤ maxChars)
    (folderName sep : String) (hsep : keepNonSpace sep.data = []) :
    keepNonSpaceS (mergeOutputContent
      (merge_files (.dir (numberedEntries 1 (split_text_into_chunks T maxChars)))
        folderName sep)) = keepNonSpaceS T := by
  have hcontent := joinedNonSpace_split_chunks T maxChars hm
  cases hcs : split_text_into_chunks T maxChars with
  | nil =>
    have hcsL : split_chunks T.data maxChars = [] := by
      have := congrArg List.length hcs
      rw [split_text_into_chunks, List.length_map] at this
      exact List.length_eq_zero.1 this
    show keepNonSpaceS (mergeOutputContent (merge_files (.dir []) folderName sep)) =
      keepNonSpaceS T
    have hmerge : merge_files (.dir ([] : List (String × String))) folderName sep =
        .error ("No numbered text files found in: " ++ folderName) := rfl
    rw [hmerge]
    show String.mk (keepNonSpace "".data) = keepNonSpaceS T
    rw [hcsL] at hcontent
    rw [keepNonSpaceS, ← hcontent]
    rfl
  | cons s0 srest =>
    set csS := s0 :: srest with hcsS
    have hprops : ∀ s ∈ csS, pyStripS s = s ∧ s ≠ "" := by
      rw [← hcs]
      exact split_text_chunk_props T maxChars hm
    have hdisc := get_numbered_files_numberedEntries csS 1
    have hread := readEntry_numberedEntries csS
    have hcollect : collectContents (numberedEntries 1 csS) (indexPairs 1 csS) = csS :=
      collectContents_indexPairs csS 1 (numberedEntries 1 csS)
        (fun i h1 h2 => hread 1 i h1 h2) hprops
    have hne1 : indexPairs 1 csS ≠ [] := by
      rw [hcsS, indexPairs]
      exact List.cons_ne_nil _ _
    have hne2 : csS ≠ [] := List.cons_ne_nil _ _
    show keepNonSpaceS (mergeOutputContent
      (merge_files (.dir (numberedEntries 1 csS)) folderName sep)) = keepNonSpaceS T
    rw [merge_files]
    rw [hdisc, if_neg hne1, hcollect, if_neg hne2]
    show keepNonSpaceS (joinSepS sep csS) = keepNonSpaceS T
    have hmapdata : csS.map String.data = split_chunks T.data maxChars := by
      have : csS = (split_chunks T.data maxChars).map String.mk := by
        rw [← hcs, split_text_into_chunks]
      rw [this]
      exact map_data_map_mk _
    rw [keepNonSpaceS, joinSepS]
    show String.mk (keepNonSpace (joinSep sep.data (csS.map String.data))) = keepNonSpaceS T
    rw [hmapdata, keepNonSpace_joinSep sep.data hsep, hcontent]
    rfl

/-! ### Remaining helper lemmas -/

/-- When the whole text fits in one chunk, the split is the stripped text
(or nothing, when the text strips to nothing). -/
theorem split_chunks_of_le {l : List Char} {maxChars : Nat}
    (hlen : l.length ≤ maxChars) :
    split_chunks l maxChars = if pyStrip l = [] then [] else [pyStrip l] := by
  rcases Nat.eq_zero_or_pos l.length with h0 | hpos
  · have hl : l = [] := List.length_eq_zero.1 h0
    subst hl
    rw [split_chunks, splitGo_done _ _ (le_refl 0) _, Option.getD_some,
      if_pos (show pyStrip [] = [] from rfl)]
  · have hE : chunkEnd l maxChars 0 = l.length := by
      simp only [chunkEnd]
      have h1 : min (0 + maxChars) l.length = l.length := by omega
      rw [h1]
      simp
    have hslice : sliceL l 0 l.length = l := by
      simp [sliceL]
    obtain ⟨m, hm'⟩ : ∃ m, l.length = m + 1 := ⟨l.length - 1, by omega⟩
    rw [split_chunks, hm']
    simp only [splitGo]
    rw [if_pos (show 0 < l.length by omega), hE, hslice,
      splitGo_done l maxChars (le_refl _) m]
    rfl

theorem matchedPairs_map_fst_preserved (f : String × String → String × String)
    (hf : ∀ e, (f e).1 = e.1) :
    ∀ entries, matchedPairs (entries.map f) = matchedPairs entries
  | [] => rfl
  | e :: t => by
    have ih := matchedPairs_map_fst_preserved f hf t
    simp only [matchedPairs, List.map_cons, List.filterMap_cons, hf e] at *
    cases matchNumbered e.1 <;> simp [ih]

/-- Writing `merged.txt` (which does not match the numbering pattern)
does not change the matched entries of a folder. -/
theorem matchedPairs_writeEntry (entries : List (String × String)) (c : String) :
    matchedPairs (writeEntry entries "merged.txt" c) = matchedPairs entries := by
  have hm : matchNumbered "merged.txt" = none := by decide
  rw [writeEntry]
  split
  · refine matchedPairs_map_fst_preserved _ (fun e => ?_) entries
    by_cases h : e.1 = "merged.txt" <;> simp [h]
  · simp [matchedPairs, List.filterMap_append, List.filterMap_cons, hm]

theorem mentions_append_right (pre suffix pat : String) (h : mentions pre pat) :
    mentions (pre ++ suffix) pat := by
  unfold mentions at *
  rw [String.data_append, List.map_append]
  exact h.trans ⟨[], suffix.data.map Char.toLower, by simp⟩

/-! ### Claims -/

/-- C1 (amended): for every text `T` and `maxChars ≥ 1`, merging (with
the default separator) the folder of chunks persisted by
`split_text_into_chunks` preserves the sequence of non-whitespace
characters of `T`.  The original word-sequence form of the claim fails
because the hard-cut fallback can split a word (see the counterexample);
preservation of the non-whitespace character sequence is what survives. -/
theorem round_trip_nonspace_preserved (T : String) (maxChars : Nat) (folderName : String)
    (hm : 1 ≤ maxChars) :
    keepNonSpaceS (mergeOutputContent
      (merge_files (FsDir.dir (numberedEntries 1 (split_text_into_chunks T maxChars)))
        folderName "\n\n")) = keepNonSpaceS T :=
  merge_split_keepNonSpace T maxChars hm folderName "\n\n" (by decide)

theorem round_trip_nonspace_preserved_witness :
    1 ≤ 2 ∧
      keepNonSpaceS (mergeOutputContent
        (merge_files (FsDir.dir (numberedEntries 1 (split_text_into_chunks "Hi there. Bye." 2)))
          "story" "\n\n")) = keepNonSpaceS "Hi there. Bye." :=
  ⟨by decide, round_trip_nonspace_preserved "Hi there. Bye." 2 "story" (by decide)⟩

/-- C1 counterexample: for the text `"ab"` with `maxChars = 1` the hard
cut splits the single word, so the word sequence of the merged output
differs from the word sequence of the original text. -/
theorem round_trip_word_sequence_counterexample :
    1 ≤ 1 ∧
      pyWords (mergeOutputContent
        (merge_files (FsDir.dir (numberedEntries 1 (split_text_into_chunks "ab" 1)))
          "story" "\n\n")) ≠ pyWords "ab" := by decide

/-- C2 (amended): `split_text_into_chunks("Hello world. This is a test.", 15)`
returns three chunks: the first break is at the sentence boundary, but
the second chunk ends at the word boundary before `"test."` (the
candidate end 27 is inside the final word and no `". "` occurs in the
window), so the actual result is `["Hello world.", "This is a", "test."]`
— still never cut mid-word. -/
theorem split_hello_world_15_actual :
    split_text_into_chunks "Hello world. This is a test." 15 =
      ["Hello world.", "This is a", "test."] := by decide

/-- C2 counterexample: the chunks are not the two claimed by the spec. -/
theorem split_hello_world_15_counterexample :
    split_text_into_chunks "Hello world. This is a test." 15 ≠
      ["Hello world.", "This is a test."] := by decide

/-- C3: with `maxChars ≥ 1`, every chunk returned by
`split_text_into_chunks` is a non-empty string of length at most
`maxChars`. -/
theorem split_chunk_wellformed (T : String) (maxChars : Nat) (hm : 1 ≤ maxChars) :
    ∀ c ∈ split_text_into_chunks T maxChars, c ≠ "" ∧ c.length ≤ maxChars := by
  intro c hc
  rw [split_text_into_chunks, List.mem_map] at hc
  obtain ⟨l, hl, rfl⟩ := hc
  rw [split_chunks, splitGo_eq_some T.data maxChars hm, Option.getD_some] at hl
  obtain ⟨hne, hlen, _⟩ :=
    splitGo_chunks T.data maxChars T.data.length 0 _ (splitGo_eq_some T.data maxChars hm) l hl
  exact ⟨fun h => hne (stringMk_eq_empty_iff.1 h), hlen⟩

theorem split_chunk_wellformed_witness :
    1 ≤ 2 ∧ "hi" ∈ split_text_into_chunks "hi" 2 ∧
      ("hi" ≠ "" ∧ "hi".length ≤ 2) :=
  ⟨by decide, by decide, split_chunk_wellformed "hi" 2 (by decide) "hi" (by decide)⟩

/-- C4 (amended): the empty text splits into the empty sequence, and when
`maxChars ≥ length(T)` the split is a single chunk equal to the stripped
text — unless `T` strips to nothing (`T` entirely whitespace), in which
case the result is empty rather than a singleton, because
`split_text_into_chunks` never emits an empty chunk (see the
counterexample). -/
theorem split_edge_cases (T : String) (maxChars : Nat) (hm : 1 ≤ maxChars)
    (hlen : T.length ≤ maxChars) :
    split_text_into_chunks "" maxChars = [] ∧
      split_text_into_chunks T maxChars =
        (if pyStripS T = "" then [] else [pyStripS T]) := by
  constructor
  · rfl
  · rw [split_text_into_chunks, split_chunks_of_le (show T.data.length ≤ maxChars from hlen)]
    by_cases h : pyStrip T.data = []
    · rw [if_pos h, if_pos (show pyStripS T = "" by rw [pyStripS, h])]
      rfl
    · rw [if_neg h, if_neg (show ¬ pyStripS T = "" from
        fun hc => h (stringMk_eq_empty_iff.1 hc))]
      rfl

theorem split_edge_cases_witness :
    (1 ≤ 5 ∧ " a ".length ≤ 5) ∧
      (split_text_into_chunks "" 5 = [] ∧
        split_text_into_chunks " a " 5 =
          (if pyStripS " a " = "" then [] else [pyStripS " a "])) :=
  ⟨⟨by decide, by decide⟩, split_edge_cases " a " 5 (by decide) (by decide)⟩

/-- C4 counterexample: a non-empty all-whitespace text with
`maxChars ≥ length(T)` yields the empty sequence, not a singleton chunk
containing the trimmed (empty) text. -/
theorem split_edge_cases_counterexample :
    (1 ≤ 1 ∧ " ".length ≤ 1) ∧
      split_text_into_chunks " " 1 = [] ∧
      split_text_into_chunks " " 1 ≠ [pyStripS " "] := by decide

/-- C5: with `maxChars ≥ 1` the cursor strictly increases at every loop
iteration (a sentence or space boundary is only adopted when strictly
after the cursor), so the loop of `split_text_into_chunks` terminates:
fuel `text.length` already yields a result, and the function is total
(no exception). -/
theorem split_terminates (T : String) (maxChars pos : Nat) (hm : 1 ≤ maxChars)
    (hpos : pos < T.data.length) :
    pos < chunkEnd T.data maxChars pos ∧
      (splitGo T.data maxChars T.data.length 0).isSome = true :=
  ⟨lt_chunkEnd T.data maxChars pos hpos hm, by
    rw [splitGo_eq_some T.data maxChars hm]
    rfl⟩

theorem split_terminates_witness :
    0 < chunkEnd "ab".data 1 0 ∧
      (splitGo "ab".data 1 "ab".data.length 0).isSome = true :=
  split_terminates "ab" 1 0 (by decide) (by decide)

/-- C6: discovery returns the empty sequence on a missing or
non-directory path; on a directory it returns exactly one (index, name)
pair per entry matching the numbering pattern (a permutation of the
matched entries in enumeration order), sorted ascending by the extracted
integer; for a folder holding `2.txt`, `10.txt`, `1.txt` the order is
`1, 2, 10`. -/
theorem discovery_postcondition :
    get_numbered_files FsDir.missing = [] ∧
      get_numbered_files FsDir.notDir = [] ∧
      (∀ entries, List.Perm (get_numbered_files (FsDir.dir entries)) (matchedPairs entries) ∧
        List.Sorted keyLe (get_numbered_files (FsDir.dir entries))) ∧
      get_numbered_files (FsDir.dir [("2.txt", "b"), ("10.txt", "j"), ("1.txt", "a")]) =
        [(1, "1.txt"), (2, "2.txt"), (10, "10.txt")] :=
  ⟨rfl, rfl,
    fun entries =>
      ⟨List.perm_insertionSort keyLe (matchedPairs entries),
        List.sorted_insertionSort keyLe (matchedPairs entries)⟩,
    by decide⟩

/-- C7 (amended): `merge_files` fails exactly when the folder is missing
(error mentioning "not found"), the path is not a directory (error
"Path is not a directory: ...", which does not mention "not found" —
this is the correction), no entry matches the numbering pattern (error
mentioning "no numbered text files"), or every matched file strips to
empty content (error "No content found in any of the numbered files");
in each failure case nothing is written.  If some matched file has
non-empty stripped content the merge succeeds. -/
theorem merge_failure_modes_amended (folderName sep : String)
    (entries : List (String × String)) :
    (merge_files FsDir.missing folderName sep =
        .error ("Input folder not found: " ++ folderName) ∧
      mentions ("Input folder not found: " ++ folderName) "not found") ∧
    merge_files FsDir.notDir folderName sep =
      .error ("Path is not a directory: " ++ folderName) ∧
    (matchedPairs entries = [] →
      merge_files (FsDir.dir entries) folderName sep =
          .error ("No numbered text files found in: " ++ folderName) ∧
        mentions ("No numbered text files found in: " ++ folderName)
          "no numbered text files" ∧
        folderAfterDefaultMerge entries folderName sep = entries) ∧
    (matchedPairs entries ≠ [] →
      collectContents entries (get_numbered_files (FsDir.dir entries)) = [] →
      merge_files (FsDir.dir entries) folderName sep =
          .error "No content found in any of the numbered files" ∧
        folderAfterDefaultMerge entries folderName sep = entries) ∧
    (collectContents entries (get_numbered_files (FsDir.dir entries)) ≠ [] →
      mergeIsOk (merge_files (FsDir.dir entries) folderName sep) = true) := by
  have hsort_nil : ∀ l : List (Nat × String), List.insertionSort keyLe l = [] → l = [] := by
    intro l h
    have hp := List.perm_insertionSort keyLe l
    rw [h] at hp
    exact hp.symm.eq_nil
  refine ⟨⟨rfl, ?_⟩, rfl, ?_, ?_, ?_⟩
  · exact mentions_append_right "Input folder not found: " folderName "not found" (by decide)
  · intro hmp
    have hnum : get_numbered_files (FsDir.dir entries) = [] := by
      rw [get_numbered_files, hmp]
      rfl
    have hmerge : merge_files (FsDir.dir entries) folderName sep =
        .error ("No numbered text files found in: " ++ folderName) := by
      simp only [merge_files, hnum]
      simp
    refine ⟨hmerge, ?_, ?_⟩
    · exact mentions_append_right "No numbered text files found in: " folderName
        "no numbered text files" (by decide)
    · rw [folderAfterDefaultMerge, hmerge]
  · intro hmp hcoll
    have hnum : get_numbered_files (FsDir.dir entries) ≠ [] := by
      rw [get_numbered_files]
      exact fun h => hmp (hsort_nil _ h)
    have hmerge : merge_files (FsDir.dir entries) folderName sep =
        .error "No content found in any of the numbered files" := by
      simp only [merge_files, if_neg hnum, hcoll]
      simp
    exact ⟨hmerge, by rw [folderAfterDefaultMerge, hmerge]⟩
  · intro hcoll
    have hnum : get_numbered_files (FsDir.dir entries) ≠ [] := by
      intro h
      rw [h] at hcoll
      exact hcoll rfl
    simp only [merge_files, if_neg hnum, if_neg hcoll, mergeIsOk]

/-- C7 witness: the three `.dir` failure and success branches at
concrete folders. -/
theorem merge_failure_modes_witness :
    (merge_files (FsDir.dir [("a.txt", "x")]) "f" "\n\n" =
        .error "No numbered text files found in: f" ∧
      folderAfterDefaultMerge [("a.txt", "x")] "f" "\n\n" = [("a.txt", "x")]) ∧
    (merge_files (FsDir.dir [("1.txt", " ")]) "f" "\n\n" =
        .error "No content found in any of the numbered files" ∧
      folderAfterDefaultMerge [("1.txt", " ")] "f" "\n\n" = [("1.txt", " ")]) ∧
    mergeIsOk (merge_files (FsDir.dir [("1.txt", "A")]) "f" "\n\n") = true := by
  obtain ⟨-, -, h3, -, -⟩ := merge_failure_modes_amended "f" "\n\n" [("a.txt", "x")]
  obtain ⟨-, -, -, h4, -⟩ := merge_failure_modes_amended "f" "\n\n" [("1.txt", " ")]
  obtain ⟨-, -, -, -, h5⟩ := merge_failure_modes_amended "f" "\n\n" [("1.txt", "A")]
  obtain ⟨ha, -, hb⟩ := h3 (by decide)
  exact ⟨⟨ha, hb⟩, h4 (by decide) (by decide), h5 (by decide)⟩

/-- C7 counterexample: on a path that exists but is not a directory the
error is "Path is not a directory: ...", which does not mention the
folder was "not found" — the claim's failure-message description is
wrong for that case. -/
theorem merge_failure_modes_counterexample :
    merge_files FsDir.notDir "folder" "\n\n" =
        .error "Path is not a directory: folder" ∧
      ¬ mentions "Path is not a directory: folder" "not found" := by
  exact ⟨rfl, by decide⟩

/-- C8: on success, `merge_files` writes the separator-join, in ascending
index order, of the stripped contents of the discovered files whose
stripped content is non-empty; `files_merged` counts exactly those files,
`total_chars` is the length of the merged text, and `files_found` counts
all discovered files; for `1.txt='A'`, `2.txt='B'` with separator `" | "`
the output content is `"A | B"` and `files_merged = 2`. -/
theorem merge_success_semantics :
    (∀ (entries : List (String × String)) (folderName sep : String) (r : MergeOk),
        merge_files (FsDir.dir entries) folderName sep = .ok r →
        r.content = joinSepS sep (mergedSpec entries) ∧
          r.files_merged = (mergedSpec entries).length ∧
          r.total_chars = r.content.length ∧
          r.files_found = (get_numbered_files (FsDir.dir entries)).length ∧
          List.Sorted keyLe (get_numbered_files (FsDir.dir entries))) ∧
      merge_files (FsDir.dir [("1.txt", "A"), ("2.txt", "B")]) "f" " | " =
        .ok { output_file := "f/merged.txt", files_merged := 2, total_chars := 5,
              files_found := 2, content := "A | B" } := by
  constructor
  · intro entries folderName sep r h
    have hspec := collectContents_eq_spec entries (get_numbered_files (FsDir.dir entries))
    by_cases h1 : get_numbered_files (FsDir.dir entries) = []
    · have herr : merge_files (FsDir.dir entries) folderName sep =
          .error ("No numbered text files found in: " ++ folderName) := by
        simp only [merge_files, h1]
        simp
      rw [herr] at h
      exact absurd h (by simp)
    · by_cases h2 : collectContents entries (get_numbered_files (FsDir.dir entries)) = []
      · have herr : merge_files (FsDir.dir entries) folderName sep =
            .error "No content found in any of the numbered files" := by
          simp only [merge_files, if_neg h1, h2]
          simp
        rw [herr] at h
        exact absurd h (by simp)
      · have hmain : merge_files (FsDir.dir entries) folderName sep = .ok
            { output_file := folderName ++ "/merged.txt"
              files_merged :=
                (collectContents entries (get_numbered_files (FsDir.dir entries))).length
              total_chars :=
                (joinSepS sep
                  (collectContents entries (get_numbered_files (FsDir.dir entries)))).length
              files_found := (get_numbered_files (FsDir.dir entries)).length
              content :=
                joinSepS sep
                  (collectContents entries (get_numbered_files (FsDir.dir entries))) } := by
          simp only [merge_files, if_neg h1, if_neg h2]
        rw [hmain] at h
        have hr := Except.ok.inj h
        subst hr
        rw [mergedSpec, ← hspec]
        exact ⟨rfl, rfl, rfl, rfl,
          List.sorted_insertionSort keyLe (matchedPairs entries)⟩
  · rfl

theorem merge_success_semantics_witness :
    ({ output_file := "f/merged.txt", files_merged := 2, total_chars := 5,
        files_found := 2, content := "A | B" } : MergeOk).content =
        joinSepS " | " (mergedSpec [("1.txt", "A"), ("2.txt", "B")]) ∧
      ({ output_file := "f/merged.txt", files_merged := 2, total_chars := 5,
          files_found := 2, content := "A | B" } : MergeOk).files_merged =
        (mergedSpec [("1.txt", "A"), ("2.txt", "B")]).length ∧
      ({ output_file := "f/merged.txt", files_merged := 2, total_chars := 5,
          files_found := 2, content := "A | B" } : MergeOk).total_chars =
        ({ output_file := "f/merged.txt", files_merged := 2, total_chars := 5,
            files_found := 2, content := "A | B" } : MergeOk).content.length ∧
      ({ output_file := "f/merged.txt", files_merged := 2, total_chars := 5,
          files_found := 2, content := "A | B" } : MergeOk).files_found =
        (get_numbered_files (FsDir.dir [("1.txt", "A"), ("2.txt", "B")])).length ∧
      List.Sorted keyLe (get_numbered_files (FsDir.dir [("1.txt", "A"), ("2.txt", "B")])) :=
  merge_success_semantics.1 [("1.txt", "A"), ("2.txt", "B")] "f" " | " _
    merge_success_semantics.2

/-- C9: `split_file` returns a failure result with a human-readable
reason — and performs no file-system work (no output folder, no segment
files) — whenever the input is missing, not a regular file, longer than
300,000 characters, or empty; the empty-file error mentions "empty". -/
theorem split_file_validation (inputPath outputFolder : String) (maxChars : Nat)
    (big c : String) :
    (split_file FsFile.missing inputPath maxChars outputFolder =
        { result := .error ("Input file not found: " ++ inputPath),
          folder_created := false, writes := [] } ∧
      mentions ("Input file not found: " ++ inputPath) "not found") ∧
    split_file FsFile.notFile inputPath maxChars outputFolder =
      { result := .error ("Path is not a file: " ++ inputPath),
        folder_created := false, writes := [] } ∧
    (300000 < big.length →
      split_file (FsFile.file big) inputPath maxChars outputFolder =
        { result := .error ("File too large: " ++ natRepr big.length ++
            " characters (max 300,000)"),
          folder_created := false, writes := [] }) ∧
    (c.length = 0 →
      split_file (FsFile.file c) inputPath maxChars outputFolder =
          { result := .error "Input file is empty",
            folder_created := false, writes := [] } ∧
        mentions "Input file is empty" "empty") := by
  refine ⟨⟨rfl, ?_⟩, rfl, ?_, ?_⟩
  · exact mentions_append_right "Input file not found: " inputPath "not found" (by decide)
  · intro hbig
    simp only [split_file]
    rw [if_pos hbig]
  · intro hc
    refine ⟨?_, by decide⟩
    simp [split_file, hc]

theorem split_file_validation_witness :
    (300000 < (String.mk (List.replicate 300001 'a')).length ∧ "".length = 0) ∧
    (split_file (FsFile.file (String.mk (List.replicate 300001 'a'))) "in.txt" 2000 "out" =
      { result := .error ("File too large: " ++
          natRepr (String.mk (List.replicate 300001 'a')).length ++
          " characters (max 300,000)"),
        folder_created := false, writes := [] }) ∧
    split_file (FsFile.file "") "in.txt" 2000 "out" =
        { result := .error "Input file is empty",
          folder_created := false, writes := [] } := by
  have hbig : 300000 < (String.mk (List.replicate 300001 'a')).length := by
    show 300000 < (List.replicate 300001 'a').length
    rw [List.length_replicate]
    omega
  obtain ⟨-, -, h3, h4⟩ :=
    split_file_validation "in.txt" "out" 2000 (String.mk (List.replicate 300001 'a')) ""
  exact ⟨⟨hbig, rfl⟩, h3 hbig, (h4 rfl).1⟩

/-- C10 (implicit): the default merge output `merged.txt` does not match
the numbering pattern `^(\d+)\.txt$`, so discovery returns the same
sequence before and after a default-output `merge_files` call on the
folder — a merge never adds to, removes from or reorders the discovered
segment set. -/
theorem merge_preserves_discovery (entries : List (String × String))
    (folderName sep : String) :
    matchNumbered "merged.txt" = none ∧
      get_numbered_files (FsDir.dir (folderAfterDefaultMerge entries folderName sep)) =
        get_numbered_files (FsDir.dir entries) := by
  refine ⟨by decide, ?_⟩
  rw [folderAfterDefaultMerge]
  cases hm : merge_files (FsDir.dir entries) folderName sep with
  | error e => rfl
  | ok r =>
    show List.insertionSort keyLe (matchedPairs (writeEntry entries "merged.txt" r.content)) =
      List.insertionSort keyLe (matchedPairs entries)
    rw [matchedPairs_writeEntry]
